import Mathlib

/-!
# Verification of the `Scopes` tag-input editor (`modules/form/src/addons/scopes.tsx`)

Shallow embedding of the scope-list editor component: a `ScopeInterface`
token holds one scope string; the component parses a space-separated
external `value` string into a token list, serialises the list back on
every change, and supports add/remove operations on the list.

JavaScript string builtins used by the source (`split(" ")`, `join(" ")`,
`trim()`) are embedded as executable Lean functions over `String.data`.
React state and effect sequencing is embedded as explicit state passing:
a `ScopesState` record plus step functions that also return the list of
`onChange` payloads fired by the `useEffect` watching `scopes`.
-/

/-- One scope token; mirrors `ScopeInterface { value: string }`. -/
structure ScopeInterface where
  value : String
deriving DecidableEq, Repr

/-- Source `buildScope`: wrap a string as a scope object. -/
def buildScope (scope : String) : ScopeInterface :=
  { value := scope }

/-- Source `buildScopeString`: unwrap a scope object. -/
def buildScopeString (scope : ScopeInterface) : String :=
  scope.value

/-- Model of JavaScript `array.join(" ")` (the `SCOPE_SEPARATOR` is a single space). -/
def jsJoinSpace : List String → String
  | [] => ""
  | [s] => s
  | s :: rest => s ++ " " ++ jsJoinSpace rest

/-- Source `buildScopesString`: `scopes.map(buildScopeString).join(" ")`. -/
def buildScopesString (scopes : List ScopeInterface) : String :=
  jsJoinSpace (scopes.map buildScopeString)

/-- Helper for `jsSplitSpace`: walk the character list, cutting at each space;
`acc` holds the current chunk reversed. -/
def splitOnSpaceAux : List Char → List Char → List String
  | [], acc => [String.mk acc.reverse]
  | c :: rest, acc =>
    if c = ' ' then String.mk acc.reverse :: splitOnSpaceAux rest []
    else splitOnSpaceAux rest (c :: acc)

/-- Model of JavaScript `s.split(" ")`: splits at every single space, keeping
empty chunks (so `"".split(" ") = [""]` and `"a  b".split(" ") = ["a","","b"]`). -/
def jsSplitSpace (s : String) : List String :=
  splitOnSpaceAux s.data []

/-- Model of JavaScript `s.trim()`: drop whitespace from both ends. -/
def jsTrim (s : String) : String :=
  String.mk (((s.data.dropWhile Char.isWhitespace).reverse.dropWhile Char.isWhitespace).reverse)

/-- The `useEffect` watching the external `value` prop: if the value is empty
(lodash `isEmpty`) leave the scope list as it is, otherwise rebuild it as
`value.split(SCOPE_SEPARATOR).map(buildScope)`. -/
def parseValueEffect (value : String) (scopes : List ScopeInterface) : List ScopeInterface :=
  if value = "" then scopes
  else (jsSplitSpace value).map buildScope

/-- Body of the `scopes.forEach` loop inside `handleScopeAdd`: push `scope`
onto `output` unless `output.filter(item => item.value == scope.value)` is
non-empty. -/
def addStep (output : List ScopeInterface) (scope : ScopeInterface) : List ScopeInterface :=
  if (output.filter (fun item => item.value == scope.value)).length ≠ 0 then
    output
  else
    output ++ [scope]

/-- The token-list construction inside `handleScopeAdd`, after the empty guard:
`output` starts as `[{value: scopeValue}]`, then the `forEach` loop runs
`addStep` over the existing scopes. -/
def addOutput (scopeValue : String) (scopes : List ScopeInterface) : List ScopeInterface :=
  scopes.foldl addStep [{ value := scopeValue }]

/-- Source `handleScopeAdd`, restricted to its effect on the scope
list: no-op when the pending value is empty, otherwise commit `addOutput`. -/
def handleScopeAdd (scopeValue : String) (scopes : List ScopeInterface) :
    List ScopeInterface :=
  if scopeValue = "" then scopes
  else addOutput scopeValue scopes

/-- Source `handleLabelRemove`: no-op on an empty target, otherwise
keep exactly the scopes not structurally equal (`lodash isEqual`) to
`buildScope scopeParam`. -/
def handleLabelRemove (scopeParam : String) (scopes : List ScopeInterface) :
    List ScopeInterface :=
  if scopeParam = "" then scopes
  else scopes.filter (fun scope => !(scope == buildScope scopeParam))

/-- Whether the render path attaches a delete icon to a tag: the source
renders a plain `Label` when `scope == defaultValue` and a `Label` with a
delete `Icon` otherwise. -/
def renderHasRemoveIcon (defaultValue : String) (scope : ScopeInterface) : Bool :=
  !(scope.value == defaultValue)

/-- The component's local state: pending input (`scopeValue`), token list
(`scopes`), and the error message (`errorMessage`). -/
structure ScopesState where
  scopeValue : String
  scopes : List ScopeInterface
  errorMessage : String
deriving DecidableEq, Repr

/-- Initial state from the three `useState` calls: `""`, `[]`, `""`. -/
def initialState : ScopesState :=
  { scopeValue := "", scopes := [], errorMessage := "" }

/-- Keystroke handler of the raw input: `setScopeValue(data.value.trim())`. -/
def handleInputChange (s : ScopesState) (raw : String) : ScopesState :=
  { s with scopeValue := jsTrim raw }

/-- Source `handleScopeAdd` as a state transition, paired with the `onChange`
payloads fired as a consequence: on the empty-pending guard the handler
returns before any `setState`, so the `scopes` effect does not re-fire;
otherwise the new list is committed (which fires `onChange` with its
serialisation), the pending input is reset and the error message cleared. -/
def handleScopeAddStep (s : ScopesState) : ScopesState × List String :=
  if s.scopeValue = "" then (s, [])
  else
    let output := addOutput s.scopeValue s.scopes
    ({ scopeValue := "", scopes := output, errorMessage := "" },
     [buildScopesString output])

/-- Source `handleLabelRemove` as a state transition with its fired `onChange` payloads. -/
def handleLabelRemoveStep (s : ScopesState) (scopeParam : String) :
    ScopesState × List String :=
  if scopeParam = "" then (s, [])
  else
    let output := handleLabelRemove scopeParam s.scopes
    ({ s with scopes := output }, [buildScopesString output])

/-- The discrete events the component reacts to. -/
inductive ScopesEvent where
  | inputChange (raw : String)
  | addClick
  | valueProp (v : String)
  | labelRemove (s : String)

/-- One reaction of the component to an event. -/
def stepState (s : ScopesState) : ScopesEvent → ScopesState
  | .inputChange raw => handleInputChange s raw
  | .addClick => (handleScopeAddStep s).1
  | .valueProp v => { s with scopes := parseValueEffect v s.scopes }
  | .labelRemove p => (handleLabelRemoveStep s p).1

/-- Run the component from its initial state over a list of events. -/
def runEvents (events : List ScopesEvent) : ScopesState :=
  events.foldl stepState initialState

/-- The `onChange` payloads fired during mount with external prop `value = v`,
in order. React runs both effects after the first render: the `value` effect
first (it calls `setScopes` on a non-empty `v`, which does not update the
`scopes` read by this render), then the `scopes` effect, which fires
`onChange` with the serialisation of the still-initial empty list. When `v`
is non-empty the committed `setScopes` re-renders and the `scopes` effect
fires again with the serialisation of the parsed list. -/
def mountOnChangeEvents (v : String) : List String :=
  if v = "" then [buildScopesString []]
  else [buildScopesString [], buildScopesString ((jsSplitSpace v).map buildScope)]

/-- Spec-side definition written from claim C1's words: the predicted result of
an add with pending token `x` — `x` takes the front position, existing tokens
equal to `x` are dropped, and existing tokens with other values (duplicates of
each other included) are all retained. Stated for comparison with
`handleScopeAdd`. -/
def claimedAddResult (x : String) (scopes : List ScopeInterface) : List ScopeInterface :=
  buildScope x :: scopes.filter (fun s => !(s.value == x))

/-- Spec-side definition of first-occurrence deduplication: iterate the list,
keeping a token only when its value is in neither `seen` nor an earlier kept
token. With `seen = [x]` this is what `handleScopeAdd` actually appends after
the new token. -/
def dedupKeepFirst (seen : List String) : List ScopeInterface → List ScopeInterface
  | [] => []
  | s :: rest =>
    if s.value ∈ seen then dedupKeepFirst seen rest
    else s :: dedupKeepFirst (seen ++ [s.value]) rest

/-! ## Helper lemmas -/

theorem splitOnSpaceAux_cons_nospace (c : Char) (l acc : List Char) (hc : c ≠ ' ') :
    splitOnSpaceAux (c :: l) acc = splitOnSpaceAux l (c :: acc) := by
  simp [splitOnSpaceAux, hc]

theorem splitOnSpaceAux_cons_space (l acc : List Char) :
    splitOnSpaceAux (' ' :: l) acc = String.mk acc.reverse :: splitOnSpaceAux l [] := by
  simp [splitOnSpaceAux]

theorem splitOnSpaceAux_append_nospace (l : List Char) (hl : ' ' ∉ l) :
    ∀ (rest acc : List Char),
      splitOnSpaceAux (l ++ rest) acc = splitOnSpaceAux rest (l.reverse ++ acc) := by
  induction l with
  | nil => intro rest acc; simp
  | cons c t ih =>
    intro rest acc
    have hc : c ≠ ' ' := fun h => hl (h ▸ List.mem_cons_self c t)
    have ht : ' ' ∉ t := fun h => hl (List.mem_cons_of_mem c h)
    have h1 : (c :: t) ++ rest = c :: (t ++ rest) := rfl
    rw [h1, splitOnSpaceAux_cons_nospace c (t ++ rest) acc hc, ih ht rest (c :: acc)]
    simp

theorem string_mk_data (s : String) : String.mk s.data = s := rfl

theorem jsSplitSpace_jsJoinSpace (xs : List String) (hxs : xs ≠ [])
    (hsp : ∀ x ∈ xs, ' ' ∉ x.data) :
    jsSplitSpace (jsJoinSpace xs) = xs := by
  induction xs with
  | nil => exact absurd rfl hxs
  | cons x t ih =>
    cases t with
    | nil =>
      show splitOnSpaceAux (jsJoinSpace [x]).data [] = [x]
      have hx : ' ' ∉ x.data := hsp x (List.mem_cons_self x [])
      have hxj : jsJoinSpace [x] = x := rfl
      rw [hxj]
      have haux := splitOnSpaceAux_append_nospace x.data hx [] []
      simp only [List.append_nil] at haux
      rw [haux]
      simp [splitOnSpaceAux, string_mk_data]
    | cons y t' =>
      have hx : ' ' ∉ x.data := hsp x (List.mem_cons_self x (y :: t'))
      have hrest : ∀ z ∈ y :: t', ' ' ∉ z.data :=
        fun z hz => hsp z (List.mem_cons_of_mem x hz)
      have hspace : (" " : String).data = [' '] := rfl
      have hjoin : (jsJoinSpace (x :: y :: t')).data
          = x.data ++ ' ' :: (jsJoinSpace (y :: t')).data := by
        have h0 : jsJoinSpace (x :: y :: t') = (x ++ " ") ++ jsJoinSpace (y :: t') := rfl
        rw [h0, String.data_append, String.data_append, hspace, List.append_assoc]
        rfl
      have hih : splitOnSpaceAux (jsJoinSpace (y :: t')).data [] = y :: t' :=
        ih (by simp) hrest
      show splitOnSpaceAux (jsJoinSpace (x :: y :: t')).data [] = _
      rw [hjoin,
        splitOnSpaceAux_append_nospace x.data hx (' ' :: (jsJoinSpace (y :: t')).data) [],
        splitOnSpaceAux_cons_space, hih]
      simp [string_mk_data]

theorem jsJoinSpace_ne_empty (x : String) (xs : List String) (hx : x ≠ "") :
    jsJoinSpace (x :: xs) ≠ "" := by
  cases xs with
  | nil => exact hx
  | cons y t =>
    intro h
    have hd : ((x ++ " ") ++ jsJoinSpace (y :: t)).data = String.data "" :=
      congrArg String.data h
    rw [String.data_append, String.data_append] at hd
    have hspace : (" " : String).data = [' '] := rfl
    rw [hspace] at hd
    simp at hd

theorem foldl_addStep (rest : List ScopeInterface) :
    ∀ (out : List ScopeInterface),
      rest.foldl addStep out
      = out ++ dedupKeepFirst (out.map ScopeInterface.value) rest := by
  induction rest with
  | nil => intro out; simp [dedupKeepFirst]
  | cons s t ih =>
    intro out
    by_cases hmem : s.value ∈ out.map ScopeInterface.value
    · have hfil : (out.filter (fun item => item.value == s.value)).length ≠ 0 := by
        obtain ⟨a, ha, hav⟩ := List.mem_map.mp hmem
        intro hlen
        have hnil : out.filter (fun item => item.value == s.value) = [] :=
          List.length_eq_zero.mp hlen
        have := List.filter_eq_nil_iff.mp hnil a ha
        simp [hav] at this
      rw [List.foldl_cons, addStep, if_pos hfil, ih out]
      rw [dedupKeepFirst, if_pos hmem]
    · have hfil : ¬ (out.filter (fun item => item.value == s.value)).length ≠ 0 := by
        simp only [ne_eq, not_not, List.length_eq_zero, List.filter_eq_nil_iff]
        intro a ha
        simp only [beq_iff_eq]
        intro hav
        exact hmem (List.mem_map.mpr ⟨a, ha, hav⟩)
      rw [List.foldl_cons, addStep, if_neg hfil, ih (out ++ [s])]
      rw [dedupKeepFirst, if_neg hmem]
      simp [List.append_assoc]

theorem addOutput_eq_dedupKeepFirst (x : String) (scopes : List ScopeInterface) :
    addOutput x scopes = buildScope x :: dedupKeepFirst [x] scopes := by
  unfold addOutput
  rw [foldl_addStep scopes [{ value := x }]]
  rfl

theorem map_buildScope_buildScopeString (L : List ScopeInterface) :
    (L.map buildScopeString).map buildScope = L := by
  induction L with
  | nil => rfl
  | cons t rest ih =>
    rw [List.map_cons, List.map_cons, ih]
    exact rfl

theorem jsTrim_eq_empty_of_whitespace (raw : String)
    (hraw : ∀ c ∈ raw.data, c.isWhitespace = true) : jsTrim raw = "" := by
  have h1 : raw.data.dropWhile Char.isWhitespace = [] :=
    List.dropWhile_eq_nil_iff.mpr hraw
  rw [jsTrim, h1]
  rfl

theorem stepState_preserves_errorMessage (s : ScopesState) (e : ScopesEvent)
    (h : s.errorMessage = "") : (stepState s e).errorMessage = "" := by
  cases e with
  | inputChange raw => exact h
  | addClick =>
    by_cases hg : s.scopeValue = "" <;>
      simp [stepState, handleScopeAddStep, hg, h]
  | valueProp v => exact h
  | labelRemove p =>
    by_cases hg : p = "" <;>
      simp [stepState, handleLabelRemoveStep, hg, h]

/-! ## Claims -/

/-- C1, counterexample: adding `"b"` to the list `[{value:"a"},{value:"a"}]`
(a list reachable by parsing the external value `"a a"`, which keeps
duplicates) yields `[{value:"b"},{value:"a"}]`, not the claimed
`[{value:"b"},{value:"a"},{value:"a"}]`: the second `"a"` is dropped even
though its value differs from the added token, because the loop checks the
output for the value of each *iterated* token, not for the value of the new
token. -/
theorem handleScopeAdd_drops_existing_duplicates :
    handleScopeAdd "b" [buildScope "a", buildScope "a"]
        = [buildScope "b", buildScope "a"] ∧
    claimedAddResult "b" [buildScope "a", buildScope "a"]
        = [buildScope "b", buildScope "a", buildScope "a"] ∧
    handleScopeAdd "b" [buildScope "a", buildScope "a"]
        ≠ claimedAddResult "b" [buildScope "a", buildScope "a"] ∧
    parseValueEffect "a a" [] = [buildScope "a", buildScope "a"] := by
  decide

/-- C1, amended: for every add committed with a non-empty pending token `x`,
the new list is `x` followed by the existing tokens in order, where an
existing token is kept unless a token with the same value as *that token* has
already been placed in the output (`x` included) — so `x` takes the front,
existing tokens equal to `x` are dropped, and later duplicates of any value
already emitted are dropped as well, keeping only first occurrences. -/
theorem handleScopeAdd_eq_dedupKeepFirst (x : String) (scopes : List ScopeInterface)
    (h : x ≠ "") :
    handleScopeAdd x scopes = buildScope x :: dedupKeepFirst [x] scopes := by
  rw [handleScopeAdd, if_neg h, addOutput_eq_dedupKeepFirst]

theorem handleScopeAdd_eq_dedupKeepFirst_witness :
    ("b" : String) ≠ "" ∧
      handleScopeAdd "b" [buildScope "a", buildScope "c"]
        = buildScope "b" :: dedupKeepFirst ["b"] [buildScope "a", buildScope "c"] :=
  ⟨by decide,
   handleScopeAdd_eq_dedupKeepFirst "b" [buildScope "a", buildScope "c"] (by decide)⟩

/-- C2: for a duplicate-free list `[a,b,c]` not containing the non-empty token
`x`, the add yields `[x,a,b,c]`; for the list `[a,x,c]` it yields `[x,a,c]` —
`x` moves to the front and no duplicate of `x` remains. -/
theorem handleScopeAdd_front_and_replace (x a b c : String) (hx : x ≠ "")
    (hax : a ≠ x) (hbx : b ≠ x) (hcx : c ≠ x)
    (hab : a ≠ b) (hac : a ≠ c) (hbc : b ≠ c) :
    handleScopeAdd x [buildScope a, buildScope b, buildScope c]
        = [buildScope x, buildScope a, buildScope b, buildScope c] ∧
    handleScopeAdd x [buildScope a, buildScope x, buildScope c]
        = [buildScope x, buildScope a, buildScope c] := by
  constructor
  · rw [handleScopeAdd, if_neg hx, addOutput_eq_dedupKeepFirst]
    simp [dedupKeepFirst, buildScope, hax, hbx, hcx,
      Ne.symm hab, Ne.symm hac, Ne.symm hbc]
  · rw [handleScopeAdd, if_neg hx, addOutput_eq_dedupKeepFirst]
    simp [dedupKeepFirst, buildScope, hax, hcx, Ne.symm hac]

theorem handleScopeAdd_front_and_replace_witness :
    (("email" : String) ≠ "" ∧ ("openid" : String) ≠ "email" ∧
     ("profile" : String) ≠ "email" ∧ ("address" : String) ≠ "email" ∧
     ("openid" : String) ≠ "profile" ∧ ("openid" : String) ≠ "address" ∧
     ("profile" : String) ≠ "address") ∧
    (handleScopeAdd "email" [buildScope "openid", buildScope "profile", buildScope "address"]
        = [buildScope "email", buildScope "openid", buildScope "profile", buildScope "address"] ∧
     handleScopeAdd "email" [buildScope "openid", buildScope "email", buildScope "address"]
        = [buildScope "email", buildScope "openid", buildScope "address"]) :=
  ⟨⟨by decide, by decide, by decide, by decide, by decide, by decide, by decide⟩,
   handleScopeAdd_front_and_replace "email" "openid" "profile" "address"
     (by decide) (by decide) (by decide) (by decide) (by decide) (by decide) (by decide)⟩

/-- C3: for any list of unique, whitespace-free, non-empty tokens `[t1..tn]`,
serialising (joining the token values with a single space) and then re-parsing
through the `value` effect (splitting on the single-space separator and
building one token per substring) yields back exactly `[t1..tn]`. -/
theorem serialize_parse_roundTrip (L : List ScopeInterface)
    (huniq : (L.map buildScopeString).Nodup)
    (hne : ∀ t ∈ L, t.value ≠ "")
    (hws : ∀ t ∈ L, ∀ c ∈ t.value.data, c.isWhitespace = false) :
    parseValueEffect (buildScopesString L) L = L := by
  cases L with
  | nil => rfl
  | cons t rest =>
    have hjoin : buildScopesString (t :: rest)
        = jsJoinSpace (t.value :: rest.map buildScopeString) := rfl
    have hne' : buildScopesString (t :: rest) ≠ "" := by
      rw [hjoin]
      exact jsJoinSpace_ne_empty t.value (rest.map buildScopeString)
        (hne t (List.mem_cons_self t rest))
    have hsp : ∀ x ∈ (t :: rest).map buildScopeString, ' ' ∉ x.data := by
      intro xx hxx
      obtain ⟨u, hu, huv⟩ := List.mem_map.mp hxx
      subst huv
      intro hmem
      have hfalse := hws u hu ' ' hmem
      exact absurd hfalse (by decide)
    rw [parseValueEffect, if_neg hne']
    rw [buildScopesString, jsSplitSpace_jsJoinSpace ((t :: rest).map buildScopeString)
      (by simp) hsp]
    exact map_buildScope_buildScopeString (t :: rest)

theorem serialize_parse_roundTrip_witness :
    (([buildScope "openid", buildScope "profile"].map buildScopeString).Nodup ∧
     (∀ t ∈ [buildScope "openid", buildScope "profile"], t.value ≠ "") ∧
     (∀ t ∈ [buildScope "openid", buildScope "profile"],
        ∀ c ∈ t.value.data, c.isWhitespace = false)) ∧
    parseValueEffect (buildScopesString [buildScope "openid", buildScope "profile"])
        [buildScope "openid", buildScope "profile"]
      = [buildScope "openid", buildScope "profile"] :=
  ⟨⟨by decide, by decide, by decide⟩,
   serialize_parse_roundTrip [buildScope "openid", buildScope "profile"]
     (by decide) (by decide) (by decide)⟩

/-- C4: the remove operation with target `s` is a no-op when `s` is empty; for
non-empty `s` it removes every token whose value equals `s` while keeping all
other tokens in their current order (it is exactly a filter on the value), and
removing a value not present in the list leaves the list unchanged. -/
theorem handleLabelRemove_spec (s : String) (L : List ScopeInterface) (h : s ≠ "") :
    handleLabelRemove "" L = L ∧
    handleLabelRemove s L = L.filter (fun t => !(t.value == s)) ∧
    ((∀ t ∈ L, t.value ≠ s) → handleLabelRemove s L = L) := by
  have hfilter : handleLabelRemove s L = L.filter (fun t => !(t.value == s)) := by
    rw [handleLabelRemove, if_neg h]
    apply List.filter_congr
    intro t ht
    obtain ⟨v⟩ := t
    by_cases hv : v = s <;> simp [buildScope, hv]
  refine ⟨by rw [handleLabelRemove, if_pos rfl], hfilter, ?_⟩
  intro hall
  rw [hfilter]
  apply List.filter_eq_self.mpr
  intro t ht
  have hv := hall t ht
  simp [hv]

theorem handleLabelRemove_spec_witness :
    ("profile" : String) ≠ "" ∧
    (handleLabelRemove "" [buildScope "openid", buildScope "profile", buildScope "email"]
        = [buildScope "openid", buildScope "profile", buildScope "email"] ∧
     handleLabelRemove "profile" [buildScope "openid", buildScope "profile", buildScope "email"]
        = [buildScope "openid", buildScope "profile", buildScope "email"].filter
            (fun t => !(t.value == "profile")) ∧
     ((∀ t ∈ [buildScope "openid", buildScope "profile", buildScope "email"],
          t.value ≠ "profile") →
        handleLabelRemove "profile"
            [buildScope "openid", buildScope "profile", buildScope "email"]
          = [buildScope "openid", buildScope "profile", buildScope "email"])) :=
  ⟨by decide,
   handleLabelRemove_spec "profile"
     [buildScope "openid", buildScope "profile", buildScope "email"] (by decide)⟩

/-- C5: whenever the external `value` prop is a non-empty string, the internal
list is rebuilt as one token per substring of the single-space split,
preserving split order, with no deduplication applied — duplicates in the
external string are retained at parse time (`"dup dup"` gives two equal
tokens) and consecutive separators produce empty-valued tokens rather than a
rejection (`"a  b"` gives a middle token with value `""`). -/
theorem parseValueEffect_nonEmpty_spec (v : String) (L L2 : List ScopeInterface)
    (h : v ≠ "") :
    parseValueEffect v L = (jsSplitSpace v).map buildScope ∧
    parseValueEffect "dup dup" L2 = [buildScope "dup", buildScope "dup"] ∧
    parseValueEffect "a  b" L2 = [buildScope "a", buildScope "", buildScope "b"] := by
  refine ⟨by rw [parseValueEffect, if_neg h], ?_, ?_⟩
  · rw [parseValueEffect, if_neg (by decide)]
    rfl
  · rw [parseValueEffect, if_neg (by decide)]
    rfl

theorem parseValueEffect_nonEmpty_spec_witness :
    ("openid profile" : String) ≠ "" ∧
    (parseValueEffect "openid profile" [] = (jsSplitSpace "openid profile").map buildScope ∧
     parseValueEffect "dup dup" [buildScope "x"] = [buildScope "dup", buildScope "dup"] ∧
     parseValueEffect "a  b" [buildScope "x"]
        = [buildScope "a", buildScope "", buildScope "b"]) :=
  ⟨by decide, parseValueEffect_nonEmpty_spec "openid profile" [] [buildScope "x"] (by decide)⟩

/-- C6: when the external `value` prop is or becomes empty, the internal token
list (indeed the whole component state) stays exactly as it was: an empty
external value never clears or modifies an already-populated list. -/
theorem parseValueEffect_empty_noop (s : ScopesState) (L : List ScopeInterface) :
    parseValueEffect "" L = L ∧
    stepState s (ScopesEvent.valueProp "") = s := by
  exact ⟨rfl, rfl⟩

/-- C7: an add triggered while the pending input value is the empty string —
including any whitespace-only entry, since the keystroke handler trims it to
empty before commit — leaves the component state unchanged and fires no
`onChange` payload. -/
theorem handleScopeAddStep_empty_noop (s : ScopesState) (raw : String)
    (h : s.scopeValue = "") (hraw : ∀ c ∈ raw.data, c.isWhitespace = true) :
    handleScopeAddStep s = (s, []) ∧
    handleScopeAddStep (handleInputChange s raw) = (handleInputChange s raw, []) := by
  constructor
  · rw [handleScopeAddStep, if_pos h]
  · have htrim : (handleInputChange s raw).scopeValue = "" :=
      jsTrim_eq_empty_of_whitespace raw hraw
    rw [handleScopeAddStep, if_pos htrim]

theorem handleScopeAddStep_empty_noop_witness :
    (initialState.scopeValue = "" ∧ (∀ c ∈ ("  " : String).data, c.isWhitespace = true)) ∧
    (handleScopeAddStep initialState = (initialState, []) ∧
     handleScopeAddStep (handleInputChange initialState "  ")
        = (handleInputChange initialState "  ", [])) :=
  ⟨⟨by decide, by decide⟩,
   handleScopeAddStep_empty_noop initialState "  " (by decide) (by decide)⟩

/-- C8: the non-removable protection of the token equal to `defaultValue` is a
rendering affordance only — the render path attaches no delete icon to it,
every other token gets one — while the remove operation itself has no guard:
invoked directly with the default value it removes that token and keeps all
tokens with other values. -/
theorem defaultValue_protection_ui_only (d : String) (L : List ScopeInterface)
    (h : d ≠ "") :
    renderHasRemoveIcon d (buildScope d) = false ∧
    (∀ t : ScopeInterface, t.value ≠ d → renderHasRemoveIcon d t = true) ∧
    buildScope d ∉ handleLabelRemove d L ∧
    (∀ t ∈ L, t.value ≠ d → t ∈ handleLabelRemove d L) := by
  refine ⟨by simp [renderHasRemoveIcon, buildScope], ?_, ?_, ?_⟩
  · intro t ht
    simp [renderHasRemoveIcon, ht]
  · rw [handleLabelRemove, if_neg h]
    intro hmem
    have := (List.mem_filter.mp hmem).2
    simp at this
  · intro t ht hv
    rw [handleLabelRemove, if_neg h]
    apply List.mem_filter.mpr
    refine ⟨ht, ?_⟩
    obtain ⟨v⟩ := t
    simp only [buildScope] at hv ⊢
    simp [hv]

theorem defaultValue_protection_ui_only_witness :
    ("openid" : String) ≠ "" ∧
    (renderHasRemoveIcon "openid" (buildScope "openid") = false ∧
     (∀ t : ScopeInterface, t.value ≠ "openid" → renderHasRemoveIcon "openid" t = true) ∧
     buildScope "openid" ∉
        handleLabelRemove "openid" [buildScope "openid", buildScope "profile"] ∧
     (∀ t ∈ [buildScope "openid", buildScope "profile"], t.value ≠ "openid" →
        t ∈ handleLabelRemove "openid" [buildScope "openid", buildScope "profile"])) :=
  ⟨by decide,
   defaultValue_protection_ui_only "openid"
     [buildScope "openid", buildScope "profile"] (by decide)⟩

/-- C9: in every state reachable from the initial state by any sequence of
events (keystrokes, add clicks, external value changes, label removals), the
error message equals the empty string: the only write after initialisation
assigns the empty string. -/
theorem errorMessage_always_empty (events : List ScopesEvent) :
    (runEvents events).errorMessage = "" := by
  have key : ∀ (evs : List ScopesEvent) (s : ScopesState), s.errorMessage = "" →
      (evs.foldl stepState s).errorMessage = "" := by
    intro evs
    induction evs with
    | nil => intro s hs; exact hs
    | cons e t ih =>
      intro s hs
      exact ih (stepState s e) (stepState_preserves_errorMessage s e hs)
  exact key events initialState rfl

/-- C10: on mount the component fires `onChange` once with the serialisation
of the initial empty list (the empty string), whatever the external value is;
when the external value is non-empty on mount, a second `onChange` carrying
the space-joined parsed value follows — so a parent always receives at least
one notification it did not trigger. -/
theorem mount_onChange_events (v : String) (h : v ≠ "") :
    (∀ w : String, (mountOnChangeEvents w).head? = some (buildScopesString [])) ∧
    buildScopesString [] = "" ∧
    (∀ w : String, 1 ≤ (mountOnChangeEvents w).length) ∧
    mountOnChangeEvents v
      = ["", buildScopesString ((jsSplitSpace v).map buildScope)] := by
  refine ⟨?_, rfl, ?_, ?_⟩
  · intro w
    by_cases hw : w = "" <;> simp [mountOnChangeEvents, hw]
  · intro w
    by_cases hw : w = "" <;> simp [mountOnChangeEvents, hw]
  · rw [mountOnChangeEvents, if_neg h]
    rfl

theorem mount_onChange_events_witness :
    ("openid profile" : String) ≠ "" ∧
    ((∀ w : String, (mountOnChangeEvents w).head? = some (buildScopesString [])) ∧
     buildScopesString [] = "" ∧
     (∀ w : String, 1 ≤ (mountOnChangeEvents w).length) ∧
     mountOnChangeEvents "openid profile"
       = ["", buildScopesString ((jsSplitSpace "openid profile").map buildScope)]) :=
  ⟨by decide, mount_onChange_events "openid profile" (by decide)⟩
